import Mathlib

/-!
# Verification of the process-mining visual's aggregation core

Shallow embedding of `src/src/visual.ts` (a Power BI custom visual that
renders an event log as a process-flow graph).  The repository contains
several evolutionary snapshots of the same visual concatenated in one
file; we refer to them as:

* variant 1 (`V1`): lines 56-259 of `visual.ts` — `fillRelationships`
  with key separator `","`, raw (uncoerced) case-id cells, truthiness
  test on the happy-path cell, and `plotGraph` with an integer-percent
  label and no threshold filter;
* variant 2 (`V2`): lines 314-460 — `fillRelationships` with key
  separator `"->"`, `+row[1]` coerced case ids, `row[4].toString() ===
  'true'` happy test, and `plotActivities` with a one-decimal percent
  label filtered by `relationShipPercentageThreshold`;
* variant 4 (`V4`): lines 682-859 — the path-signature mode
  (`fillActivityEvents`, `sortActivityEvents`, `groupBy`).

JavaScript numbers are modelled by `JsNum` (finite rationals plus `NaN`
and the two infinities); the digit strings JS prints for non-integral
numbers, and the exotic parts of `Number(string)` (hex, exponents), are
abstracted in a documented way — no claim below depends on them.
-/

/-- A JavaScript number: a finite value, `NaN`, or `±Infinity`.
Finite doubles are modelled as exact rationals (every claim below
involves only small integers and halves, where double arithmetic is
exact). -/
inductive JsNum where
  | nan : JsNum
  | inf : JsNum
  | ninf : JsNum
  | fin (q : ℚ) : JsNum
deriving DecidableEq, Repr

namespace JsNum

/-- JavaScript `+` on numbers: `NaN` is absorbing and
`Infinity + -Infinity = NaN`. -/
def jsAdd : JsNum → JsNum → JsNum
  | nan, _ => nan
  | _, nan => nan
  | inf, ninf => nan
  | ninf, inf => nan
  | inf, _ => inf
  | _, inf => inf
  | ninf, _ => ninf
  | _, ninf => ninf
  | fin a, fin b => fin (a + b)

/-- JavaScript `/` on numbers (`0/0 = NaN`, `x/0 = ±Infinity` for
`x ≠ 0`, `x/±Infinity = 0`, `±Infinity/±Infinity = NaN`). -/
def jsDiv : JsNum → JsNum → JsNum
  | nan, _ => nan
  | _, nan => nan
  | inf, inf => nan
  | inf, ninf => nan
  | ninf, inf => nan
  | ninf, ninf => nan
  | inf, fin q => if q < 0 then ninf else inf
  | ninf, fin q => if q < 0 then inf else ninf
  | fin _, inf => fin 0
  | fin _, ninf => fin 0
  | fin a, fin b =>
    if b = 0 then (if a = 0 then nan else (if a < 0 then ninf else inf))
    else fin (a / b)

/-- `Math.round` on a rational: round half toward `+∞`,
i.e. `⌊q + 1/2⌋`. -/
def jsRound (q : ℚ) : ℤ := ⌊q + 1/2⌋

/-- `Math.round` lifted to `JsNum` (`Math.round(NaN) = NaN`,
`Math.round(±Infinity) = ±Infinity`). -/
def jsRoundNum : JsNum → JsNum
  | nan => nan
  | inf => inf
  | ninf => ninf
  | fin q => fin (jsRound q)

/-- `String(n)` for a JS number.  `NaN` and the infinities print their
JS names; integral values print their decimal digits.  JS prints
non-integral values as a positional decimal expansion; the exact digit
string is irrelevant to every claim in this development (all proofs use
integral or `NaN` values), so it is abstracted as `num/den`. -/
def jsNumToString : JsNum → String
  | nan => "NaN"
  | inf => "Infinity"
  | ninf => "-Infinity"
  | fin q => if q.den = 1 then toString q.num
             else toString q.num ++ "/" ++ toString q.den

end JsNum

/-- A loosely-typed table cell as delivered by the host
(`powerbi.PrimitiveValue` restricted to the shapes the visual's code
paths can survive: a `null`/`undefined` cell would throw in
`row[i].toString()` and is outside the model). -/
inductive Cell where
  | str (s : String) : Cell
  | num (n : JsNum) : Cell
  | boolean (b : Bool) : Cell
deriving DecidableEq, Repr

/-- `cell.toString()`. -/
def cellToString : Cell → String
  | .str s => s
  | .num n => n.jsNumToString
  | .boolean b => if b then "true" else "false"

/-- One decimal-digit character to its value. -/
def digitVal (c : Char) : ℕ := c.toNat - '0'.toNat

/-- Parse a nonempty all-digit character list to a natural number
(most significant digit first); `none` otherwise. -/
def parseDigits : List Char → Option ℕ
  | [] => none
  | l => if l.all (·.isDigit)
         then some (l.foldl (fun acc c => acc * 10 + digitVal c) 0)
         else none

/-- Parse an unsigned decimal literal (digit string with at most one
point, digits on at least one side), as JS `Number(string)` accepts:
`"10"`, `"1."`, `".5"`, `"1.5"`.  Hexadecimal and exponent forms of the
JS grammar are abstracted away (no claim involves them). -/
def parseDecimal (l : List Char) : Option ℚ :=
  match l.splitOn '.' with
  | [intPart] => (parseDigits intPart).map (fun n => (n : ℚ))
  | [intPart, fracPart] =>
    if intPart = [] ∧ fracPart = [] then none
    else if intPart ≠ [] ∧ ¬ intPart.all (·.isDigit) then none
    else if fracPart ≠ [] ∧ ¬ fracPart.all (·.isDigit) then none
    else
      let ip : ℚ := ((parseDigits intPart).getD 0 : ℕ)
      let fp : ℚ := ((parseDigits fracPart).getD 0 : ℕ)
      some (ip + fp / (10 ^ fracPart.length : ℕ))
  | _ => none

/-- Strip leading and trailing whitespace from a character list (the
whitespace trimming JS `ToNumber` applies to strings). -/
def trimChars (l : List Char) : List Char :=
  ((l.dropWhile Char.isWhitespace).reverse.dropWhile Char.isWhitespace).reverse

/-- JS `Number(string)` (the `ToNumber` coercion applied by unary `+`):
trimmed empty string is `0`, optional sign, `"Infinity"`, or a decimal
literal; anything else is `NaN`. -/
def jsStringToNumber (s : String) : JsNum :=
  match trimChars s.data with
  | [] => .fin 0
  | '+' :: rest =>
    if rest = "Infinity".data then .inf
    else match parseDecimal rest with
         | some q => .fin q
         | none => .nan
  | '-' :: rest =>
    if rest = "Infinity".data then .ninf
    else match parseDecimal rest with
         | some q => .fin (-q)
         | none => .nan
  | l =>
    if l = "Infinity".data then .inf
    else match parseDecimal l with
         | some q => .fin q
         | none => .nan

/-- Unary `+cell` (JS `ToNumber`): numbers pass through, booleans map
to `0`/`1`, strings are parsed. -/
def cellToNumber : Cell → JsNum
  | .num n => n
  | .boolean b => .fin (if b then 1 else 0)
  | .str s => jsStringToNumber s

/-- JS truthiness of a cell (`if (cell)`): the empty string, `0` and
`NaN` are falsy; every other modelled value is truthy. -/
def cellTruthy : Cell → Bool
  | .str s => s ≠ ""
  | .num .nan => false
  | .num (.fin q) => q ≠ 0
  | .num _ => true
  | .boolean b => b

/-- One input table row.  The data-binding contract fixes the column
roles by position; variants 1 and 2 read `row[1]` (case id), `row[2]`
(from activity), `row[3]` (to activity), `row[4]` (happy-path flag) and
`row[5]` (duration).  `row[0]` is never read by those variants and is
omitted from the model. -/
structure Row where
  c1 : Cell
  c2 : Cell
  c3 : Cell
  c4 : Cell
  c5 : Cell
deriving DecidableEq, Repr

/-- The `Relationship` record of `visual.ts`, generic in the type of
the entries of `caseIds`: variant 1 stores the raw `row[1]` cells
(`caseId = row[1]`), variant 2 stores coerced numbers
(`caseId = +row[1]`).  `from`/`to` are Lean keywords and are embedded
as `fromAct`/`toAct`. -/
structure RelG (α : Type) where
  key : String
  fromAct : String
  toAct : String
  amount : ℕ
  isHappyPath : Bool
  caseIds : List α
  durations : List JsNum
deriving DecidableEq, Repr

/-- Lookup in an insertion-ordered association list — the model of a
JS `Map`'s `get`/`has` (the `relationships` field). -/
def alookup : List (String × β) → String → Option β
  | [], _ => none
  | (k2, v) :: t, k => if k2 = k then some v else alookup t k

/-- Replace the value stored at `k` (first occurrence), keeping its
position — the model of `Map.set` on a present key.  Identity when the
key is absent (the embedding only calls it on present keys). -/
def aset : List (String × β) → String → β → List (String × β)
  | [], _, _ => []
  | (k2, v) :: t, k, v2 =>
    if k2 = k then (k2, v2) :: t else (k2, v) :: aset t k v2

section FillCore

variable {α : Type} (keyOf : Row → String) (cid : Row → α)

/-- `duration = +row[5]` (both variants with a duration column). -/
def rowDuration (r : Row) : JsNum := cellToNumber r.c5

/-- The `Relationship` created on the first occurrence of a key
(`amount: 1, isHappyPath: false, caseIds: [caseId],
durations: [duration]`). -/
def initRel (r : Row) : RelG α :=
  ⟨keyOf r, cellToString r.c2, cellToString r.c3, 1, false,
    [cid r], [rowDuration r]⟩

/-- The update applied to an existing `Relationship`
(`rel.amount++; rel.caseIds.push(caseId); rel.durations.push(duration)`). -/
def pushRel (rel : RelG α) (r : Row) : RelG α :=
  { rel with amount := rel.amount + 1,
             caseIds := rel.caseIds ++ [cid r],
             durations := rel.durations ++ [rowDuration r] }

/-- One iteration of the `table.rows.forEach` body of
`fillRelationships` (without the happy-path collection, which is a
separate pass below). -/
def stepRel (m : List (String × RelG α)) (r : Row) : List (String × RelG α) :=
  match alookup m (keyOf r) with
  | none => m ++ [(keyOf r, initRel keyOf cid r)]
  | some rel => aset m (keyOf r) (pushRel cid rel r)

/-- The accumulation pass of `fillRelationships` over all rows. -/
def fillCore (rows : List Row) : List (String × RelG α) :=
  rows.foldl (stepRel keyOf cid) []

/-- The second pass of `fillRelationships`:
`happyPath.forEach(key => this.relationships.get(key).isHappyPath = true)`.
Every key in `happyPath` was inserted by the first pass, so the net
effect is to set the flag on the entries whose key occurs in the
collected list. -/
def markHappy (happyKeys : List String) (m : List (String × RelG α)) :
    List (String × RelG α) :=
  m.map (fun p =>
    (p.1, if p.1 ∈ happyKeys then { p.2 with isHappyPath := true } else p.2))

end FillCore

/-- Variant 1 transition key: `from + "," + to` (line 152). -/
def rowKeyV1 (r : Row) : String := cellToString r.c2 ++ "," ++ cellToString r.c3

/-- Variant 2 key constructor: `from + "->" + to`. -/
def mkKeyV2 (f t : String) : String := f ++ "->" ++ t

/-- Variant 2 transition key: `from + "->" + to` (line 368). -/
def rowKeyV2 (r : Row) : String := mkKeyV2 (cellToString r.c2) (cellToString r.c3)

/-- Variant 1 case id: the raw cell (`caseId = row[1]`, line 146). -/
def rowCaseV1 (r : Row) : Cell := r.c1

/-- Variant 2 case id: the coerced number (`caseId = +row[1]`, line 363). -/
def rowCaseV2 (r : Row) : JsNum := cellToNumber r.c1

/-- Variant 1 happy-path test: `ihp = row[4]` then `if (ihp)` — plain
JS truthiness of the raw cell (lines 150, 153). -/
def rowHappyV1 (r : Row) : Bool := cellTruthy r.c4

/-- Variant 2 happy-path test:
`ihp = (row[4].toString() === 'true')` (line 366). -/
def rowHappyV2 (r : Row) : Bool := cellToString r.c4 == "true"

/-- The `happyPath` array collected by variant 1's row pass: the key of
every row whose flag cell is truthy, in row order. -/
def happyKeysV1 (rows : List Row) : List String :=
  (rows.filter rowHappyV1).map rowKeyV1

/-- The `happyPath` array collected by variant 2's row pass. -/
def happyKeysV2 (rows : List Row) : List String :=
  (rows.filter rowHappyV2).map rowKeyV2

/-- Variant 1 `Visual.fillRelationships` (lines 141-176): the final
state of `this.relationships` after both passes. -/
def fillRelationshipsV1 (rows : List Row) : List (String × RelG Cell) :=
  markHappy (happyKeysV1 rows) (fillCore rowKeyV1 rowCaseV1 rows)

/-- Variant 2 `Visual.fillRelationships` (lines 359-392). -/
def fillRelationshipsV2 (rows : List Row) : List (String × RelG JsNum) :=
  markHappy (happyKeysV2 rows) (fillCore rowKeyV2 rowCaseV2 rows)

/-! ### Lemmas about the association-list map -/

theorem alookup_append (m l : List (String × β)) (k : String) :
    alookup (m ++ l) k =
      match alookup m k with
      | some v => some v
      | none => alookup l k := by
  induction m with
  | nil => simp [alookup]
  | cons p t ih =>
    obtain ⟨k2, v⟩ := p
    by_cases h : k2 = k <;> simp [alookup, h, ih]

theorem alookup_aset_same (m : List (String × β)) (k : String) (v : β)
    (h : (alookup m k).isSome) : alookup (aset m k v) k = some v := by
  induction m with
  | nil => simp [alookup] at h
  | cons p t ih =>
    obtain ⟨k2, w⟩ := p
    by_cases hk : k2 = k
    · simp [alookup, aset, hk]
    · simp [alookup, aset, hk] at h ⊢
      exact ih h

theorem alookup_aset_other (m : List (String × β)) (k k2 : String) (v : β)
    (h : k ≠ k2) : alookup (aset m k v) k2 = alookup m k2 := by
  induction m with
  | nil => simp [aset]
  | cons p t ih =>
    obtain ⟨k3, w⟩ := p
    by_cases hk : k3 = k
    · subst hk
      simp [alookup, aset, h]
    · simp [alookup, aset, hk, ih]

theorem alookup_isSome_iff (m : List (String × β)) (k : String) :
    (alookup m k).isSome = true ↔ k ∈ m.map Prod.fst := by
  induction m with
  | nil => simp [alookup]
  | cons p t ih =>
    obtain ⟨k2, v⟩ := p
    by_cases h : k2 = k
    · subst h
      simp [alookup]
    · simp [alookup, h, ih, Ne.symm h]

theorem aset_map_fst (m : List (String × β)) (k : String) (v : β) :
    (aset m k v).map Prod.fst = m.map Prod.fst := by
  induction m with
  | nil => simp [aset]
  | cons p t ih =>
    obtain ⟨k2, w⟩ := p
    by_cases h : k2 = k <;> simp [aset, h, ih]

/-! ### Characterization of the accumulation pass

`fillCore` assigns to each key the aggregate of exactly the rows whose
key equals it, in row order.  `extendRel` describes how a `Relationship`
grows when a further batch of rows with its key is folded in. -/

section FillCoreLemmas

variable {α : Type} (keyOf : Row → String) (cid : Row → α)

/-- The effect on an existing `Relationship` of accumulating a further
list of rows (all with its key). -/
def extendRel (rel : RelG α) (l : List Row) : RelG α :=
  { rel with amount := rel.amount + l.length,
             caseIds := rel.caseIds ++ l.map cid,
             durations := rel.durations ++ l.map rowDuration }

theorem extendRel_nil (rel : RelG α) : extendRel cid rel [] = rel := by
  cases rel
  simp [extendRel]

theorem extendRel_push (rel : RelG α) (r : Row) (l : List Row) :
    extendRel cid (pushRel cid rel r) l = extendRel cid rel (r :: l) := by
  cases rel
  simp [extendRel, pushRel, Nat.add_assoc, Nat.add_comm 1]

theorem fillAux_lookup (rows : List Row) (m : List (String × RelG α)) (k : String) :
    alookup (rows.foldl (stepRel keyOf cid) m) k =
      match alookup m k, rows.filter (fun r => keyOf r = k) with
      | some rel, l => some (extendRel cid rel l)
      | none, [] => none
      | none, r :: t => some (extendRel cid (initRel keyOf cid r) t) := by
  induction rows generalizing m with
  | nil =>
    match h : alookup m k with
    | some rel => simp [h, extendRel_nil]
    | none => simp [h]
  | cons r rs ih =>
    rw [List.foldl_cons, ih]
    by_cases hk : keyOf r = k
    · subst hk
      match h : alookup m (keyOf r) with
      | some rel =>
        rw [stepRel, h, alookup_aset_same _ _ _ (by simp [h]),
          List.filter_cons_of_pos (by simp)]
        simp [extendRel_push]
      | none =>
        rw [stepRel, h, alookup_append, h, List.filter_cons_of_pos (by simp)]
        simp [alookup]
    · have hstep : alookup (stepRel keyOf cid m r) k = alookup m k := by
        rw [stepRel]
        match h : alookup m (keyOf r) with
        | some rel => exact alookup_aset_other _ _ _ _ hk
        | none =>
          rw [alookup_append]
          match h2 : alookup m k with
          | some v => rfl
          | none => simp [alookup, hk]
      rw [hstep, List.filter_cons_of_neg (by simp [hk])]

/-- Main characterization of the accumulation pass: the entry at key
`k` is the aggregate of exactly the rows whose key is `k`. -/
theorem fillCore_lookup (rows : List Row) (k : String) :
    alookup (fillCore keyOf cid rows) k =
      match rows.filter (fun r => keyOf r = k) with
      | [] => none
      | r :: t => some (extendRel cid (initRel keyOf cid r) t) := by
  rw [fillCore, fillAux_lookup]
  have h0 : alookup ([] : List (String × RelG α)) k = none := rfl
  rw [h0]
  rcases rows.filter (fun r => keyOf r = k) with _ | ⟨r, t⟩ <;> rfl

theorem markHappy_lookup (hk : List String) (m : List (String × RelG α)) (k : String) :
    alookup (markHappy hk m) k =
      (alookup m k).map
        (fun rel => if k ∈ hk then { rel with isHappyPath := true } else rel) := by
  induction m with
  | nil => simp [markHappy, alookup]
  | cons p t ih =>
    obtain ⟨k2, v⟩ := p
    by_cases h : k2 = k
    · subst h
      simp [markHappy, alookup]
    · simpa [markHappy, alookup, h] using ih

end FillCoreLemmas

/-- Full description of an entry of the finished `relationships` map:
it aggregates exactly the rows sharing its key, in row order, with
`from`/`to` taken from the first such row and the happy flag set iff
the key occurs in the collected `happyPath` list. -/
theorem fill_lookup_spec {α : Type} (keyOf : Row → String) (cid : Row → α)
    (hks : List String) (rows : List Row) (k : String) (rel : RelG α)
    (h : alookup (markHappy hks (fillCore keyOf cid rows)) k = some rel) :
    ∃ r0 t, rows.filter (fun r => keyOf r = k) = r0 :: t ∧ keyOf r0 = k ∧
      rel = { key := keyOf r0, fromAct := cellToString r0.c2,
              toAct := cellToString r0.c3, amount := (r0 :: t).length,
              isHappyPath := if k ∈ hks then true else false,
              caseIds := (r0 :: t).map cid,
              durations := (r0 :: t).map rowDuration } := by
  rw [markHappy_lookup, fillCore_lookup] at h
  rcases hf : rows.filter (fun r => keyOf r = k) with _ | ⟨r0, t⟩
  · rw [hf] at h
    simp at h
  · rw [hf] at h
    have hk0 : keyOf r0 = k := by
      have : r0 ∈ rows.filter (fun r => keyOf r = k) := by
        rw [hf]; exact List.mem_cons_self r0 t
      simpa using List.of_mem_filter this
    refine ⟨r0, t, rfl, hk0, ?_⟩
    simp only [Option.map_some] at h
    by_cases hmem : k ∈ hks <;>
      simpa [hmem, extendRel, initRel, Nat.add_comm] using h.symm

/-- Membership in a collected `happyPath` list, unfolded. -/
theorem mem_happyKeys_iff (hp : Row → Bool) (kf : Row → String)
    (rows : List Row) (k : String) :
    k ∈ (rows.filter hp).map kf ↔ ∃ r ∈ rows, hp r = true ∧ kf r = k := by
  simp only [List.mem_map, List.mem_filter]
  constructor
  · rintro ⟨r, ⟨hr, hhp⟩, hk⟩
    exact ⟨r, hr, hhp, hk⟩
  · rintro ⟨r, hr, hhp, hk⟩
    exact ⟨r, ⟨hr, hhp⟩, hk⟩

/-! ## Claim C2: count invariant -/

/-- C2: after one full aggregation pass of `fillRelationships` (both
the variant-1 and the variant-2 version) over any input row sequence,
every `Relationship` in the resulting map satisfies
`amount == caseIds.length` and `amount == durations.length`. -/
theorem c2_count_invariant :
    (∀ (rows : List Row) (k : String) (rel : RelG Cell),
        alookup (fillRelationshipsV1 rows) k = some rel →
        rel.amount = rel.caseIds.length ∧ rel.amount = rel.durations.length) ∧
    (∀ (rows : List Row) (k : String) (rel : RelG JsNum),
        alookup (fillRelationshipsV2 rows) k = some rel →
        rel.amount = rel.caseIds.length ∧ rel.amount = rel.durations.length) := by
  constructor
  · intro rows k rel h
    obtain ⟨r0, t, -, -, hrel⟩ :=
      fill_lookup_spec rowKeyV1 rowCaseV1 (happyKeysV1 rows) rows k rel h
    subst hrel
    simp
  · intro rows k rel h
    obtain ⟨r0, t, -, -, hrel⟩ :=
      fill_lookup_spec rowKeyV2 rowCaseV2 (happyKeysV2 rows) rows k rel h
    subst hrel
    simp

/-- A sample input row used by several witnesses below:
`caseId = 1`, transition `A → B`, empty flag cell, duration `2`. -/
def wRow : Row := ⟨.num (.fin 1), .str "A", .str "B", .str "", .num (.fin 2)⟩

/-- The map entry variant 2 builds from `[wRow]`. -/
def wRelV2 : RelG JsNum :=
  ⟨"A->B", "A", "B", 1, false, [.fin 1], [.fin 2]⟩

/-- Witness for C2 at a concrete input. -/
theorem c2_count_invariant_witness :
    alookup (fillRelationshipsV2 [wRow]) "A->B" = some wRelV2 ∧
      (wRelV2.amount = wRelV2.caseIds.length ∧
        wRelV2.amount = wRelV2.durations.length) :=
  ⟨by decide, c2_count_invariant.2 [wRow] "A->B" wRelV2 (by decide)⟩

/-! ## Claim C1: transition identity is the concatenated key string -/

/-- Splitting around a unique separator character: if neither prefix
contains `c`, equality of the concatenations forces componentwise
equality. -/
theorem append_sep_inj (c : Char) :
    ∀ (l1 l2 r1 r2 : List Char), c ∉ l1 → c ∉ l2 →
      l1 ++ c :: r1 = l2 ++ c :: r2 → l1 = l2 ∧ r1 = r2 := by
  intro l1
  induction l1 with
  | nil =>
    intro l2 r1 r2 _ h2 heq
    cases l2 with
    | nil => simpa using heq
    | cons b t =>
      simp only [List.nil_append, List.cons_append, List.cons.injEq] at heq
      exact absurd (heq.1 ▸ List.mem_cons_self b t) h2
  | cons a t1 ih =>
    intro l2 r1 r2 h1 h2 heq
    cases l2 with
    | nil =>
      simp only [List.cons_append, List.nil_append, List.cons.injEq] at heq
      exact absurd (heq.1 ▸ List.mem_cons_self a t1) h1
    | cons b t2 =>
      simp only [List.cons_append, List.cons.injEq] at heq
      obtain ⟨hab, hrest⟩ := heq
      obtain ⟨ht, hr⟩ := ih t2 r1 r2 (fun hm => h1 (List.mem_cons_of_mem a hm))
        (fun hm => h2 (hab ▸ List.mem_cons_of_mem b hm)) hrest
      exact ⟨by rw [hab, ht], hr⟩

/-- When the `from` labels are free of `'-'`, the variant-2 key
`from + "->" + to` determines the `(from, to)` pair. -/
theorem mkKeyV2_inj (f1 t1 f2 t2 : String)
    (h1 : '-' ∉ f1.data) (h2 : '-' ∉ f2.data) :
    mkKeyV2 f1 t1 = mkKeyV2 f2 t2 ↔ (f1 = f2 ∧ t1 = t2) := by
  constructor
  · intro h
    have hd : f1.data ++ '-' :: '>' :: t1.data =
        f2.data ++ '-' :: '>' :: t2.data := by
      have := congrArg String.data h
      simpa [mkKeyV2, String.data_append] using this
    obtain ⟨hf, ht⟩ := append_sep_inj '-' f1.data f2.data _ _ h1 h2 hd
    refine ⟨String.ext hf, String.ext ?_⟩
    simpa using ht
  · rintro ⟨rfl, rfl⟩
    rfl

/-- C1 (amended): two input events are accumulated into the same
`Relationship` if and only if their concatenated key strings
(`from + "->" + to` in variant 2) are equal — each map entry aggregates
exactly the rows whose key string equals its key (first conjunct: its
`caseIds` and `amount` come from exactly those rows).  Componentwise
pair equality is only recovered when the `from` labels do not contain
the separator (second conjunct); labels containing it can collide (see
the counterexample). -/
theorem c1_transition_identity :
    (∀ (rows : List Row) (k : String) (rel : RelG JsNum),
        alookup (fillRelationshipsV2 rows) k = some rel →
        rel.caseIds = (rows.filter (fun r => rowKeyV2 r = k)).map rowCaseV2 ∧
        rel.amount = (rows.filter (fun r => rowKeyV2 r = k)).length) ∧
    (∀ f1 t1 f2 t2 : String, '-' ∉ f1.data → '-' ∉ f2.data →
        (mkKeyV2 f1 t1 = mkKeyV2 f2 t2 ↔ (f1 = f2 ∧ t1 = t2))) := by
  constructor
  · intro rows k rel h
    obtain ⟨r0, t, hf, -, hrel⟩ :=
      fill_lookup_spec rowKeyV2 rowCaseV2 (happyKeysV2 rows) rows k rel h
    rw [hf]
    subst hrel
    simp
  · exact fun f1 t1 f2 t2 h1 h2 => mkKeyV2_inj f1 t1 f2 t2 h1 h2

/-- C1 counterexample: the events `(from = "A->B", to = "C")` and
`(from = "A", to = "B->C")` have componentwise-different `(from, to)`
pairs, yet variant 2 accumulates them into one single map entry (the
shared key `"A->B->C"`, with `amount = 2`), refuting "every pair of
events whose pairs differ in either component produce distinct
entries". -/
theorem c1_counterexample :
    (¬ (("A->B", "C") = ("A", "B->C"))) ∧
      (fillRelationshipsV2
        [⟨.num (.fin 1), .str "A->B", .str "C", .str "", .num (.fin 0)⟩,
         ⟨.num (.fin 2), .str "A", .str "B->C", .str "", .num (.fin 0)⟩]).length = 1 ∧
      (alookup (fillRelationshipsV2
        [⟨.num (.fin 1), .str "A->B", .str "C", .str "", .num (.fin 0)⟩,
         ⟨.num (.fin 2), .str "A", .str "B->C", .str "", .num (.fin 0)⟩])
        "A->B->C").map (fun rel => rel.amount) = some 2 := by
  refine ⟨by decide, by decide, by decide⟩

/-- Witness for C1 at a concrete input. -/
theorem c1_transition_identity_witness :
    (wRelV2.caseIds = [JsNum.fin 1] ∧ wRelV2.amount = 1) ∧
      (mkKeyV2 "A" "B" = mkKeyV2 "A" "B" ↔ (("A" : String) = "A" ∧ ("B" : String) = "B")) := by
  constructor
  · have h := c1_transition_identity.1 [wRow] "A->B" wRelV2 (by decide)
    constructor
    · rw [h.1]; decide
    · rw [h.2]; decide
  · exact c1_transition_identity.2 "A" "B" "A" "B" (by decide) (by decide)

/-! ## Claim C5: the happy-path flag test -/

/-- C5 (amended): variant 2 (`ihp = (row[4].toString() === 'true')`)
marks a transition key happy iff some row with that key has a flag cell
whose string form is exactly `"true"` (case-sensitive).  Variant 1
(`ihp = row[4]; if (ihp)`) instead marks the key happy iff some row
with that key has a *truthy* flag cell — any non-empty string, any
non-zero non-`NaN` number, or boolean `true`. -/
theorem c5_happy_flag :
    (∀ (rows : List Row) (k : String) (rel : RelG JsNum),
        alookup (fillRelationshipsV2 rows) k = some rel →
        (rel.isHappyPath = true ↔
          ∃ r ∈ rows, rowKeyV2 r = k ∧ cellToString r.c4 = "true")) ∧
    (∀ (rows : List Row) (k : String) (rel : RelG Cell),
        alookup (fillRelationshipsV1 rows) k = some rel →
        (rel.isHappyPath = true ↔
          ∃ r ∈ rows, rowKeyV1 r = k ∧ cellTruthy r.c4 = true)) := by
  constructor
  · intro rows k rel h
    obtain ⟨r0, t, -, -, hrel⟩ :=
      fill_lookup_spec rowKeyV2 rowCaseV2 (happyKeysV2 rows) rows k rel h
    subst hrel
    constructor
    · intro hif
      by_cases hmem : k ∈ happyKeysV2 rows
      · obtain ⟨r, hr, hhp, hk⟩ :=
          (mem_happyKeys_iff rowHappyV2 rowKeyV2 rows k).mp
            (by simpa [happyKeysV2] using hmem)
        exact ⟨r, hr, hk, by simpa [rowHappyV2] using hhp⟩
      · simp [hmem] at hif
    · rintro ⟨r, hr, hk, hs⟩
      have hmem : k ∈ happyKeysV2 rows := by
        rw [happyKeysV2]
        exact (mem_happyKeys_iff rowHappyV2 rowKeyV2 rows k).mpr
          ⟨r, hr, by simp [rowHappyV2, hs], hk⟩
      simp [hmem]
  · intro rows k rel h
    obtain ⟨r0, t, -, -, hrel⟩ :=
      fill_lookup_spec rowKeyV1 rowCaseV1 (happyKeysV1 rows) rows k rel h
    subst hrel
    constructor
    · intro hif
      by_cases hmem : k ∈ happyKeysV1 rows
      · obtain ⟨r, hr, hhp, hk⟩ :=
          (mem_happyKeys_iff rowHappyV1 rowKeyV1 rows k).mp
            (by simpa [happyKeysV1] using hmem)
        exact ⟨r, hr, hk, by simpa [rowHappyV1] using hhp⟩
      · simp [hmem] at hif
    · rintro ⟨r, hr, hk, hs⟩
      have hmem : k ∈ happyKeysV1 rows := by
        rw [happyKeysV1]
        exact (mem_happyKeys_iff rowHappyV1 rowKeyV1 rows k).mpr
          ⟨r, hr, by simp [rowHappyV1, hs], hk⟩
      simp [hmem]

/-- C5 counterexample: in variant 1 a flag cell `"yes"` — a non-empty
string different from `"true"` — still marks the transition happy
(plain truthiness, the `=== "yes"` comparison is commented out in the
source), refuting "any other cell value, including other non-empty
strings, is treated as not happy". -/
theorem c5_counterexample :
    (alookup (fillRelationshipsV1
        [⟨.num (.fin 1), .str "A", .str "B", .str "yes", .num (.fin 0)⟩])
        "A,B").map (fun rel => rel.isHappyPath) = some true ∧
      cellToString (.str "yes") ≠ "true" := by
  refine ⟨by decide, by decide⟩

/-- The row and map entry used by the C5 witness (variant 2, flag cell
`"true"`). -/
def wRowHappy : Row := ⟨.num (.fin 1), .str "A", .str "B", .str "true", .num (.fin 0)⟩

/-- Witness for C5 at a concrete input. -/
theorem c5_happy_flag_witness :
    alookup (fillRelationshipsV2 [wRowHappy]) "A->B" =
        some ⟨"A->B", "A", "B", 1, true, [.fin 1], [.fin 0]⟩ ∧
      (⟨"A->B", "A", "B", 1, true, [.fin 1], [.fin 0]⟩ : RelG JsNum).isHappyPath = true := by
  refine ⟨by decide, ?_⟩
  exact (c5_happy_flag.1 [wRowHappy] "A->B" _ (by decide)).mpr
    ⟨wRowHappy, List.mem_cons_self _ _, by decide, by decide⟩

/-! ## Duration statistics (`calculateDurationStatistics`) -/

/-- `Visual.calculateDurationStatistics` (lines 252-258 and 453-459):
sum all entries of `durations` in a loop, then divide by
`durations.length`.  There is no guard: an empty list gives `0/0`. -/
def calculateDurationStatistics (durations : List JsNum) : JsNum :=
  JsNum.jsDiv (durations.foldl JsNum.jsAdd (.fin 0)) (.fin durations.length)

theorem jsAdd_nan_left (x : JsNum) : JsNum.jsAdd .nan x = .nan := by
  cases x <;> rfl

theorem jsAdd_nan_right (x : JsNum) : JsNum.jsAdd x .nan = .nan := by
  cases x <;> rfl

theorem foldl_jsAdd_nan (l : List JsNum) :
    l.foldl JsNum.jsAdd .nan = .nan := by
  induction l with
  | nil => rfl
  | cons x t ih => rw [List.foldl_cons, jsAdd_nan_left, ih]

theorem foldl_jsAdd_of_mem_nan (l : List JsNum) :
    ∀ acc : JsNum, JsNum.nan ∈ l → l.foldl JsNum.jsAdd acc = .nan := by
  induction l with
  | nil =>
    intro acc h2
    simp at h2
  | cons x t ih =>
    intro acc h2
    rcases List.mem_cons.mp h2 with hx | ht
    · subst hx
      rw [List.foldl_cons, jsAdd_nan_right, foldl_jsAdd_nan]
    · rw [List.foldl_cons]
      exact ih _ ht

/-- A `NaN` sample poisons the whole sum, hence the whole mean. -/
theorem calculateDurationStatistics_nan (l : List JsNum) (h : JsNum.nan ∈ l) :
    calculateDurationStatistics l = .nan := by
  rw [calculateDurationStatistics, foldl_jsAdd_of_mem_nan l _ h]
  rfl

/-! ## Claim C8: zero duration samples -/

/-- C8 (amended): the division in `calculateDurationStatistics` is
*not* guarded — on an empty sample list it computes `0/0 = NaN`, and no
"statistic unavailable" omission logic exists (the mean, `NaN`
included, always flows into the edge label).  The computation is total
(no fatal error), and the zero-sample case is unreachable from one
aggregation pass: every `Relationship` built by `fillRelationships` has
`amount ≥ 1` and at least one duration sample. -/
theorem c8_zero_samples :
    calculateDurationStatistics [] = .nan ∧
      (∀ (rows : List Row) (k : String) (rel : RelG JsNum),
        alookup (fillRelationshipsV2 rows) k = some rel →
        1 ≤ rel.amount ∧ rel.durations ≠ []) := by
  refine ⟨rfl, ?_⟩
  intro rows k rel h
  obtain ⟨r0, t, -, -, hrel⟩ :=
    fill_lookup_spec rowKeyV2 rowCaseV2 (happyKeysV2 rows) rows k rel h
  subst hrel
  simp [Nat.succ_le_of_lt]

/-- C8 counterexample: with zero duration samples the division is not
guarded and produces `NaN` (`0/0`), and `Math.round(NaN) = NaN` would
flow into the rendered label — the claim's "no NaN-bearing output" and
"display is omitted" fail. -/
theorem c8_counterexample :
    calculateDurationStatistics [] = .nan ∧
      JsNum.jsRoundNum (calculateDurationStatistics []) = .nan ∧
      JsNum.nan ≠ JsNum.fin 0 := by
  refine ⟨rfl, rfl, by decide⟩

/-- Witness for C8 at a concrete input. -/
theorem c8_zero_samples_witness :
    calculateDurationStatistics [] = .nan ∧
      (1 ≤ wRelV2.amount ∧ wRelV2.durations ≠ []) :=
  ⟨c8_zero_samples.1, c8_zero_samples.2 [wRow] "A->B" wRelV2 (by decide)⟩

/-! ## Claim C9: non-numeric duration cells -/

/-- C9 (amended): a duration cell that does not parse as a number is
coerced to `NaN` and *appended to the relationship's samples*; the mean
computation sums every sample, so a single non-numeric row makes the
whole reported mean `NaN` instead of being excluded. -/
theorem c9_nan_duration :
    cellToNumber (.str "abc") = .nan ∧
      (∀ (rows : List Row) (k : String) (rel : RelG JsNum),
        alookup (fillRelationshipsV2 rows) k = some rel →
        rel.durations = (rows.filter (fun r => rowKeyV2 r = k)).map rowDuration) ∧
      (∀ l : List JsNum, JsNum.nan ∈ l →
        calculateDurationStatistics l = .nan) := by
  refine ⟨by decide, ?_, calculateDurationStatistics_nan⟩
  intro rows k rel h
  obtain ⟨r0, t, hf, -, hrel⟩ :=
    fill_lookup_spec rowKeyV2 rowCaseV2 (happyKeysV2 rows) rows k rel h
  rw [hf]
  subst hrel
  rfl

/-- C9 counterexample: two rows of the same transition, durations `10`
and `"abc"`.  The relationship's reported mean is `NaN`, not the mean
`10` of the remaining numeric sample — the non-numeric row *does*
change the statistic computed from the remaining rows. -/
theorem c9_counterexample :
    (alookup (fillRelationshipsV2
        [⟨.num (.fin 1), .str "A", .str "B", .str "", .num (.fin 10)⟩,
         ⟨.num (.fin 2), .str "A", .str "B", .str "", .str "abc"⟩]) "A->B").map
      (fun rel => calculateDurationStatistics rel.durations) = some .nan ∧
      calculateDurationStatistics [.fin 10] = .fin 10 ∧
      JsNum.nan ≠ JsNum.fin 10 := by
  refine ⟨by decide, ?_, by decide⟩
  norm_num [calculateDurationStatistics, JsNum.jsAdd, JsNum.jsDiv]

/-- Witness for C9 at a concrete input. -/
theorem c9_nan_duration_witness :
    cellToNumber (.str "abc") = .nan ∧
      wRelV2.durations = [.fin 2] ∧
      calculateDurationStatistics [.nan] = .nan := by
  refine ⟨c9_nan_duration.1, ?_, ?_⟩
  · have h := c9_nan_duration.2.1 [wRow] "A->B" wRelV2 (by decide)
    rw [h]; decide
  · exact c9_nan_duration.2.2 [.nan] (List.mem_cons_self _ _)

/-! ## Distinct case counting and edge percentages -/

/-- `[...new Set(xs)]`: deduplicate keeping first-seen order
(JS `Set` insertion order), equality being SameValueZero — modelled by
decidable equality on the element type (`NaN` equals itself, as in a JS
`Set`). -/
def jsSetDedup {β : Type} [DecidableEq β] (l : List β) : List β :=
  l.foldl (fun acc x => if x ∈ acc then acc else acc ++ [x]) []

theorem jsSetDedup_step_length {β : Type} [DecidableEq β]
    (l : List β) (acc : List β) :
    acc.length ≤
      (l.foldl (fun acc x => if x ∈ acc then acc else acc ++ [x]) acc).length := by
  induction l generalizing acc with
  | nil => simp
  | cons x t ih =>
    rw [List.foldl_cons]
    refine le_trans ?_ (ih _)
    by_cases hx : x ∈ acc <;> simp [hx]

theorem jsSetDedup_length_pos {β : Type} [DecidableEq β]
    (l : List β) (h : l ≠ []) : 1 ≤ (jsSetDedup l).length := by
  match l with
  | [] => exact absurd rfl h
  | x :: t =>
    rw [jsSetDedup, List.foldl_cons]
    have h1 : (if x ∈ ([] : List β) then ([] : List β) else [] ++ [x]) = [x] := by
      simp
    rw [h1]
    exact le_trans (by simp) (jsSetDedup_step_length t [x])

/-- Variant 1 `plotGraph` distinct cases (lines 182-185):
`caseIds.push(row[1])` — the raw cells — then `[...new Set(caseIds)]`. -/
def distinctCaseCellsV1 (rows : List Row) : List Cell :=
  jsSetDedup (rows.map (fun r => r.c1))

/-- Variant 2 `plotActivities` distinct cases (lines 399-405):
`caseIds.push(+row[1])` — coerced numbers — then `[...new Set(caseIds)]`. -/
def distinctCaseNumsV2 (rows : List Row) : List JsNum :=
  jsSetDedup (rows.map rowCaseV2)

/-- Variant 1 edge percentage (line 200):
`Math.round((rel.amount / caseIds.length) * 100)` — an integer.
(The rational division models the reachable case `caseIds.length ≥ 1`,
which holds whenever a relationship exists; see `c7_percentage`.) -/
def percentageRelV1 (rel : RelG Cell) (rows : List Row) : ℤ :=
  JsNum.jsRound ((rel.amount : ℚ) / ((distinctCaseCellsV1 rows).length : ℚ) * 100)

/-- Variant 2 edge percentage (line 414):
`Math.round(rel.amount / caseIds.length * 1000) / 10` — one decimal
place, e.g. `33.3`. -/
def percentageRelV2 (rel : RelG JsNum) (rows : List Row) : ℚ :=
  (JsNum.jsRound ((rel.amount : ℚ) / ((distinctCaseNumsV2 rows).length : ℚ) * 1000) : ℚ) / 10

/-! ## Claim C7: the percentage statistic -/

/-- C7 (amended): for every relationship in the aggregated map, the
variant-1 `plotGraph` edge percentage equals
`round(m / d * 100)` where `m` is the number of input rows with that
transition key and `d` the number of distinct (raw) case cells; the
variant-2 `plotActivities` percentage instead equals
`round(m / d * 1000) / 10` — one decimal place, with `d` counting
distinct *coerced* case numbers — which differs from
`round(m / d * 100)` in general (see the counterexample).  In both
variants the denominator is nonzero whenever the map is nonempty. -/
theorem c7_percentage :
    (∀ (rows : List Row) (k : String) (rel : RelG Cell),
        alookup (fillRelationshipsV1 rows) k = some rel →
        percentageRelV1 rel rows =
          JsNum.jsRound (((rows.filter (fun r => rowKeyV1 r = k)).length : ℚ) /
            ((distinctCaseCellsV1 rows).length : ℚ) * 100) ∧
        1 ≤ (distinctCaseCellsV1 rows).length) ∧
    (∀ (rows : List Row) (k : String) (rel : RelG JsNum),
        alookup (fillRelationshipsV2 rows) k = some rel →
        percentageRelV2 rel rows =
          (JsNum.jsRound (((rows.filter (fun r => rowKeyV2 r = k)).length : ℚ) /
            ((distinctCaseNumsV2 rows).length : ℚ) * 1000) : ℚ) / 10 ∧
        1 ≤ (distinctCaseNumsV2 rows).length) := by
  constructor
  · intro rows k rel h
    obtain ⟨r0, t, hf, -, hrel⟩ :=
      fill_lookup_spec rowKeyV1 rowCaseV1 (happyKeysV1 rows) rows k rel h
    have hne : rows ≠ [] := by
      intro hnil
      rw [hnil] at hf
      simp at hf
    refine ⟨?_, ?_⟩
    · rw [hf]
      subst hrel
      rfl
    · exact jsSetDedup_length_pos _ (by simpa using hne)
  · intro rows k rel h
    obtain ⟨r0, t, hf, -, hrel⟩ :=
      fill_lookup_spec rowKeyV2 rowCaseV2 (happyKeysV2 rows) rows k rel h
    have hne : rows ≠ [] := by
      intro hnil
      rw [hnil] at hf
      simp at hf
    refine ⟨?_, ?_⟩
    · rw [hf]
      subst hrel
      rfl
    · exact jsSetDedup_length_pos _ (by simpa using hne)

/-- Three rows, three distinct cases, the `A → B` transition occurring
once: variant 2 shows `33.3`, the claimed formula gives `33`. -/
def wRows3 : List Row :=
  [⟨.num (.fin 1), .str "A", .str "B", .str "", .num (.fin 0)⟩,
   ⟨.num (.fin 2), .str "C", .str "D", .str "", .num (.fin 0)⟩,
   ⟨.num (.fin 3), .str "E", .str "F", .str "", .num (.fin 0)⟩]

/-- C7 counterexample: with `amount = 1` and `3` distinct cases the
variant-2 edge percentage is `33.3`, while
`round(amount / distinctCaseCount * 100)` is `33` — the claimed formula
does not describe `plotActivities`. -/
theorem c7_counterexample :
    (alookup (fillRelationshipsV2 wRows3) "A->B").map
        (fun rel => percentageRelV2 rel wRows3) = some (333/10 : ℚ) ∧
      JsNum.jsRound ((1 : ℚ) / 3 * 100) = 33 ∧
      (333/10 : ℚ) ≠ ((33 : ℤ) : ℚ) := by
  have hl : alookup (fillRelationshipsV2 wRows3) "A->B" =
      some ⟨"A->B", "A", "B", 1, false, [.fin 1], [.fin 0]⟩ := by decide
  have hd : distinctCaseNumsV2 wRows3 = [.fin 1, .fin 2, .fin 3] := by decide
  refine ⟨?_, ?_, by norm_num⟩
  · rw [hl, Option.map_some']
    have : percentageRelV2 ⟨"A->B", "A", "B", 1, false, [.fin 1], [.fin 0]⟩ wRows3 =
        (JsNum.jsRound ((1 : ℚ) / 3 * 1000) : ℚ) / 10 := by
      rw [percentageRelV2, hd]
      norm_num
    rw [this]
    have h333 : JsNum.jsRound ((1 : ℚ) / 3 * 1000) = 333 := by
      rw [JsNum.jsRound, Int.floor_eq_iff]
      norm_num
    rw [h333]
    norm_num
  · rw [JsNum.jsRound, Int.floor_eq_iff]
    norm_num

/-- Witness for C7 at a concrete input (variant 1 side). -/
theorem c7_percentage_witness :
    percentageRelV1 ⟨"A,B", "A", "B", 1, false, [.num (.fin 1)], [.fin 2]⟩ [wRow] =
        JsNum.jsRound ((([wRow].filter (fun r => rowKeyV1 r = "A,B")).length : ℚ) /
          ((distinctCaseCellsV1 [wRow]).length : ℚ) * 100) ∧
      1 ≤ (distinctCaseCellsV1 [wRow]).length := by
  exact c7_percentage.1 [wRow] "A,B"
    ⟨"A,B", "A", "B", 1, false, [.num (.fin 1)], [.fin 2]⟩ (by decide)

/-! ## Rendered edges (`plotGraph` / `plotActivities`) -/

/-- The data dagre receives per edge from variant 1's `plotGraph`
(lines 199-218): styles keyed by the happy flag, and a label carrying
the integer percentage and the rounded mean duration. -/
structure EdgeV1 where
  fromAct : String
  toAct : String
  isHappyPath : Bool
  pct : ℤ
  meanDuration : JsNum
deriving DecidableEq, Repr

/-- The data dagre receives per edge from variant 2's
`plotActivities` (lines 413-429). -/
structure EdgeV2 where
  fromAct : String
  toAct : String
  isHappyPath : Bool
  pct : ℚ
  meanDuration : JsNum
deriving DecidableEq, Repr

/-- Variant 1 `plotGraph` edge pass: `this.relationships.forEach`
calls `g.setEdge` for *every* relationship — there is no threshold
test in this variant (the `relationShipPercentageThreshold` field is
read in `update` but never consulted here). -/
def plotGraphEdges (rels : List (String × RelG Cell)) (rows : List Row) :
    List EdgeV1 :=
  rels.map (fun p =>
    ⟨p.2.fromAct, p.2.toAct, p.2.isHappyPath, percentageRelV1 p.2 rows,
      JsNum.jsRoundNum (calculateDurationStatistics p.2.durations)⟩)

/-- Variant 2 `plotActivities` edge pass: `g.setEdge` runs only when
`percentageRel > this.relationShipPercentageThreshold` (line 417,
strict comparison). -/
def plotActivitiesEdges (rels : List (String × RelG JsNum)) (rows : List Row)
    (threshold : ℚ) : List EdgeV2 :=
  rels.filterMap (fun p =>
    let pct := percentageRelV2 p.2 rows
    if pct > threshold then
      some ⟨p.2.fromAct, p.2.toAct, p.2.isHappyPath, pct,
        JsNum.jsRoundNum (calculateDurationStatistics p.2.durations)⟩
    else none)

/-- Evaluation helper for `Math.round`. -/
theorem jsRound_eq (q : ℚ) (z : ℤ) (h1 : (z : ℚ) ≤ q + 1/2)
    (h2 : q + 1/2 < (z : ℚ) + 1) : JsNum.jsRound q = z := by
  rw [JsNum.jsRound]
  exact Int.floor_eq_iff.mpr ⟨h1, h2⟩

/-- Evaluation helper for the variant-2 percentage. -/
theorem percentageRelV2_eval (rel : RelG JsNum) (rows : List Row)
    (m d : ℕ) (z : ℤ) (ham : rel.amount = m)
    (hd : (distinctCaseNumsV2 rows).length = d)
    (hz : JsNum.jsRound ((m : ℚ) / (d : ℚ) * 1000) = z) :
    percentageRelV2 rel rows = (z : ℚ) / 10 := by
  rw [percentageRelV2, ham, hd, hz]

/-! ## Claim C6: the relationship-percentage threshold -/

/-- A 20-row table with 20 distinct case ids (used to realize the
claim's `[10%, 25%, 50%]` percentages, which need 20 distinct cases). -/
def wRows20 : List Row :=
  [⟨.num (.fin 0), .str "A", .str "B", .str "", .num (.fin 0)⟩,
   ⟨.num (.fin 1), .str "A", .str "B", .str "", .num (.fin 0)⟩,
   ⟨.num (.fin 2), .str "A", .str "B", .str "", .num (.fin 0)⟩,
   ⟨.num (.fin 3), .str "A", .str "B", .str "", .num (.fin 0)⟩,
   ⟨.num (.fin 4), .str "A", .str "B", .str "", .num (.fin 0)⟩,
   ⟨.num (.fin 5), .str "A", .str "B", .str "", .num (.fin 0)⟩,
   ⟨.num (.fin 6), .str "A", .str "B", .str "", .num (.fin 0)⟩,
   ⟨.num (.fin 7), .str "A", .str "B", .str "", .num (.fin 0)⟩,
   ⟨.num (.fin 8), .str "A", .str "B", .str "", .num (.fin 0)⟩,
   ⟨.num (.fin 9), .str "A", .str "B", .str "", .num (.fin 0)⟩,
   ⟨.num (.fin 10), .str "A", .str "B", .str "", .num (.fin 0)⟩,
   ⟨.num (.fin 11), .str "A", .str "B", .str "", .num (.fin 0)⟩,
   ⟨.num (.fin 12), .str "A", .str "B", .str "", .num (.fin 0)⟩,
   ⟨.num (.fin 13), .str "A", .str "B", .str "", .num (.fin 0)⟩,
   ⟨.num (.fin 14), .str "A", .str "B", .str "", .num (.fin 0)⟩,
   ⟨.num (.fin 15), .str "A", .str "B", .str "", .num (.fin 0)⟩,
   ⟨.num (.fin 16), .str "A", .str "B", .str "", .num (.fin 0)⟩,
   ⟨.num (.fin 17), .str "A", .str "B", .str "", .num (.fin 0)⟩,
   ⟨.num (.fin 18), .str "A", .str "B", .str "", .num (.fin 0)⟩,
   ⟨.num (.fin 19), .str "A", .str "B", .str "", .num (.fin 0)⟩]

/-- A map state with three relationships of amounts `2`, `5`, `10` —
percentages `10%`, `25%`, `50%` of the 20 cases of `wRows20`. -/
def wRels6 : List (String × RelG JsNum) :=
  [("X->X2", ⟨"X->X2", "X", "X2", 2, false, [], [.fin 1]⟩),
   ("Y->Y2", ⟨"Y->Y2", "Y", "Y2", 5, false, [], [.fin 1]⟩),
   ("Z->Z2", ⟨"Z->Z2", "Z", "Z2", 10, false, [], [.fin 1]⟩)]

/-- C6 (amended): variant 2's `plotActivities` hands an edge to the
renderer exactly when its one-decimal percentage strictly exceeds the
configured threshold, so every edge at or below the threshold is
omitted, and on relationships with percentages `[10%, 25%, 50%]` and
threshold `20` exactly the `25%` and `50%` edges are rendered.
Variant 1's `plotGraph`, however, applies no threshold at all: it
renders one edge per relationship unconditionally (see the
counterexample). -/
theorem c6_threshold :
    (∀ (rels : List (String × RelG JsNum)) (rows : List Row) (th : ℚ),
        ∀ e ∈ plotActivitiesEdges rels rows th, e.pct > th) ∧
    (∀ (rels : List (String × RelG JsNum)) (rows : List Row) (th : ℚ),
        ∀ p ∈ rels, percentageRelV2 p.2 rows > th →
          (⟨p.2.fromAct, p.2.toAct, p.2.isHappyPath, percentageRelV2 p.2 rows,
            JsNum.jsRoundNum (calculateDurationStatistics p.2.durations)⟩ : EdgeV2) ∈
            plotActivitiesEdges rels rows th) ∧
    (∀ (rels : List (String × RelG Cell)) (rows : List Row),
        (plotGraphEdges rels rows).length = rels.length) ∧
    ((plotActivitiesEdges wRels6 wRows20 20).map (fun e => e.pct) = [25, 50] ∧
      wRels6.map (fun p => percentageRelV2 p.2 wRows20) = [10, 25, 50]) := by
  have hd20 : (distinctCaseNumsV2 wRows20).length = 20 := by decide
  have h10 : percentageRelV2 (⟨"X->X2", "X", "X2", 2, false, [], [.fin 1]⟩ : RelG JsNum)
      wRows20 = 10 := by
    rw [percentageRelV2_eval _ _ 2 20 100 rfl hd20
      (jsRound_eq _ _ (by norm_num) (by norm_num))]
    norm_num
  have h25 : percentageRelV2 (⟨"Y->Y2", "Y", "Y2", 5, false, [], [.fin 1]⟩ : RelG JsNum)
      wRows20 = 25 := by
    rw [percentageRelV2_eval _ _ 5 20 250 rfl hd20
      (jsRound_eq _ _ (by norm_num) (by norm_num))]
    norm_num
  have h50 : percentageRelV2 (⟨"Z->Z2", "Z", "Z2", 10, false, [], [.fin 1]⟩ : RelG JsNum)
      wRows20 = 50 := by
    rw [percentageRelV2_eval _ _ 10 20 500 rfl hd20
      (jsRound_eq _ _ (by norm_num) (by norm_num))]
    norm_num
  refine ⟨?_, ?_, ?_, ?_, ?_⟩
  · intro rels rows th e he
    obtain ⟨p, hp, hf⟩ := List.mem_filterMap.mp he
    by_cases hth : percentageRelV2 p.2 rows > th
    · simp only [hth, if_pos] at hf
      have heq := Option.some.inj hf
      subst heq
      exact hth
    · simp only [hth, if_neg] at hf
      exact absurd hf (by simp)
  · intro rels rows th p hp hth
    exact List.mem_filterMap.mpr ⟨p, hp, by simp [hth]⟩
  · intro rels rows
    simp [plotGraphEdges]
  · simp only [wRels6, plotActivitiesEdges, List.filterMap_cons, List.filterMap_nil,
      h10, h25, h50]
    rw [if_neg (by norm_num), if_pos (by norm_num), if_pos (by norm_num)]
    simp
  · simp only [wRels6, List.map_cons, List.map_nil, h10, h25, h50]

/-- A 10-row table: one `A → B` row and nine `C → D` rows, all with
distinct case ids. -/
def wRows10 : List Row :=
  [⟨.num (.fin 1), .str "A", .str "B", .str "", .num (.fin 0)⟩,
   ⟨.num (.fin 2), .str "C", .str "D", .str "", .num (.fin 0)⟩,
   ⟨.num (.fin 3), .str "C", .str "D", .str "", .num (.fin 0)⟩,
   ⟨.num (.fin 4), .str "C", .str "D", .str "", .num (.fin 0)⟩,
   ⟨.num (.fin 5), .str "C", .str "D", .str "", .num (.fin 0)⟩,
   ⟨.num (.fin 6), .str "C", .str "D", .str "", .num (.fin 0)⟩,
   ⟨.num (.fin 7), .str "C", .str "D", .str "", .num (.fin 0)⟩,
   ⟨.num (.fin 8), .str "C", .str "D", .str "", .num (.fin 0)⟩,
   ⟨.num (.fin 9), .str "C", .str "D", .str "", .num (.fin 0)⟩,
   ⟨.num (.fin 10), .str "C", .str "D", .str "", .num (.fin 0)⟩]

/-- C6 counterexample: in variant 1 the `A → B` edge has percentage
`10`, below the threshold `20`, yet `plotGraph` still hands it to the
renderer (it renders every relationship; the threshold field is never
consulted). -/
theorem c6_counterexample :
    (plotGraphEdges (fillRelationshipsV1 wRows10) wRows10).map
        (fun e => (e.fromAct, e.pct)) = [("A", 10), ("C", 90)] ∧
      (10 : ℤ) < 20 := by
  have hfill : fillRelationshipsV1 wRows10 =
      [("A,B", ⟨"A,B", "A", "B", 1, false, [.num (.fin 1)], [.fin 0]⟩),
       ("C,D", ⟨"C,D", "C", "D", 9, false, [.num (.fin 2), .num (.fin 3), .num (.fin 4), .num (.fin 5), .num (.fin 6), .num (.fin 7), .num (.fin 8), .num (.fin 9), .num (.fin 10)],
         [.fin 0, .fin 0, .fin 0, .fin 0, .fin 0, .fin 0, .fin 0, .fin 0, .fin 0]⟩)] := by decide
  have hd10 : (distinctCaseCellsV1 wRows10).length = 10 := by decide
  have hAB : percentageRelV1
      (⟨"A,B", "A", "B", 1, false, [.num (.fin 1)], [.fin 0]⟩ : RelG Cell) wRows10 = 10 := by
    rw [percentageRelV1, hd10]
    norm_num
    exact jsRound_eq _ _ (by norm_num) (by norm_num)
  have hCD : percentageRelV1
      (⟨"C,D", "C", "D", 9, false, [.num (.fin 2), .num (.fin 3), .num (.fin 4), .num (.fin 5), .num (.fin 6), .num (.fin 7), .num (.fin 8), .num (.fin 9), .num (.fin 10)],
        [.fin 0, .fin 0, .fin 0, .fin 0, .fin 0, .fin 0, .fin 0, .fin 0, .fin 0]⟩ : RelG Cell) wRows10 = 90 := by
    rw [percentageRelV1, hd10]
    norm_num
    exact jsRound_eq _ _ (by norm_num) (by norm_num)
  rw [hfill]
  refine ⟨?_, by norm_num⟩
  simp only [plotGraphEdges, List.map_cons, List.map_nil]
  rw [hAB, hCD]

/-- Witness for C6 at a concrete input: one relationship with
percentage `100` and threshold `0` — its edge is rendered. -/
theorem c6_threshold_witness :
    (⟨wRelV2.fromAct, wRelV2.toAct, wRelV2.isHappyPath,
      percentageRelV2 wRelV2 [wRow],
      JsNum.jsRoundNum (calculateDurationStatistics wRelV2.durations)⟩ : EdgeV2) ∈
      plotActivitiesEdges [("A->B", wRelV2)] [wRow] 0 := by
  have hd : (distinctCaseNumsV2 [wRow]).length = 1 := by decide
  have hpct : percentageRelV2 wRelV2 [wRow] = 100 := by
    rw [percentageRelV2_eval _ _ 1 1 1000 rfl hd
      (jsRound_eq _ _ (by norm_num) (by norm_num))]
    norm_num
  exact c6_threshold.2.1 [("A->B", wRelV2)] [wRow] 0 ("A->B", wRelV2)
    (List.mem_singleton.mpr rfl) (by rw [hpct]; norm_num)

/-! ## Path-signature mode (variant 4, lines 682-859) -/

/-- One event row of the path-signature variant
(`{caseId: +row[0], from: row[1].toString(), to: row[2].toString()}`). -/
structure ActivityEvent where
  caseId : JsNum
  fromAct : String
  toAct : String
deriving DecidableEq, Repr

/-- One case's signature (`{caseId, pathSorted}`). -/
structure Case where
  caseId : JsNum
  pathSorted : String
deriving DecidableEq, Repr

/-- One step of `Visual.groupBy`'s reduce (lines 852-858):
`if (!memo[k]) memo[k] = []; memo[k].push(x)`. -/
def insertGroup {γ : Type} (memo : List (String × List γ)) (k : String) (x : γ) :
    List (String × List γ) :=
  match alookup memo k with
  | some g => aset memo k (g ++ [x])
  | none => memo ++ [(k, [x])]

/-- `Visual.groupBy(arr, property)`: a JS object mapping each distinct
key to the list of items carrying it.  JS object property keys are
strings, so the key function is string-valued (a numeric `caseId`
becomes its string form).  The assoc list stores properties in
insertion (= first-seen) order; enumeration order is `objForIn`. -/
def groupBy {γ : Type} (arr : List γ) (keyOf : γ → String) :
    List (String × List γ) :=
  arr.foldl (fun memo x => insertGroup memo (keyOf x) x) []

/-- Whether a JS property key is an *array index* (canonical numeric
string whose value is below `2^32 - 1`) — such keys are enumerated
first and in ascending numeric order by `for...in`. -/
def isArrayIndexKey (s : String) : Bool :=
  match s.data with
  | [] => false
  | c :: rest =>
    (c :: rest).all (·.isDigit) && (rest.isEmpty || c != '0') &&
      decide ((c :: rest).foldl (fun acc ch => acc * 10 + digitVal ch) 0 < 2 ^ 32 - 1)

/-- Numeric value of an all-digit property key. -/
def keyIndexVal (s : String) : ℕ :=
  s.data.foldl (fun acc ch => acc * 10 + digitVal ch) 0

/-- Ordering of array-index property keys by numeric value. -/
def idxKeyLe {γ : Type} (p q : String × γ) : Prop :=
  keyIndexVal p.1 ≤ keyIndexVal q.1

instance {γ : Type} : DecidableRel (α := String × γ) idxKeyLe :=
  fun p q => inferInstanceAs (Decidable (keyIndexVal p.1 ≤ keyIndexVal q.1))

instance {γ : Type} : IsTotal (String × γ) idxKeyLe :=
  ⟨fun p q => le_total (keyIndexVal p.1) (keyIndexVal q.1)⟩

instance {γ : Type} : IsTrans (String × γ) idxKeyLe :=
  ⟨fun _ _ _ hab hbc => le_trans hab hbc⟩

/-- ECMAScript `for...in` enumeration order over an object's own
properties (`OrdinaryOwnPropertyKeys`): array-index keys first, in
ascending numeric order, then the remaining string keys in insertion
order. -/
def objForIn {γ : Type} (m : List (String × γ)) : List (String × γ) :=
  List.insertionSort idxKeyLe (m.filter (fun p => isArrayIndexKey p.1)) ++
    m.filter (fun p => !isArrayIndexKey p.1)

/-- `f.from + "#sep1#" + f.to` (line 745). -/
def encodeTransition (e : ActivityEvent) : String :=
  e.fromAct ++ "#sep1#" ++ e.toAct

/-- `pathSortedArray.sort()`: the JS default sort compares elements as
strings by UTF-16 code units — for the code-point strings modelled
here, lexicographic `String` order (they differ only on
supplementary-plane characters, which no claim involves).  ES2019
requires `Array.prototype.sort` to be stable; `insertionSort` is the
stable sort for this order. -/
def sortStrings (l : List String) : List String :=
  List.insertionSort (fun a b => a ≤ b) l

/-- Lines 741-750: encode a case's events, sort lexicographically,
and concatenate with `"#sep2#"`:
`pathSortedArray.sort().reduce((acc, p) => acc + p + "#sep2#", '')`. -/
def mkPathSorted (events : List ActivityEvent) : String :=
  (sortStrings (events.map encodeTransition)).foldl
    (fun acc path => acc ++ path ++ "#sep2#") ""

/-- Lines 739-756: one `Case` per (nonempty) case-id group, with
`caseId` from the group's first event (`caseObj[0].caseId`). -/
def casesOfGroups (groups : List (String × List ActivityEvent)) : List Case :=
  groups.filterMap (fun p =>
    match p.2 with
    | [] => none
    | h :: _ => some ⟨h.caseId, mkPathSorted p.2⟩)

/-- The comparator of line 772, `(a, b) => b.length - a.length`, as
the ordering it sorts by: descending length.  ES2019 requires the sort
to be stable. -/
def lenGe {γ : Type} (a b : List γ) : Prop := b.length ≤ a.length

instance {γ : Type} : DecidableRel (α := List γ) lenGe :=
  fun a b => inferInstanceAs (Decidable (b.length ≤ a.length))

instance {γ : Type} : IsTotal (List γ) lenGe :=
  ⟨fun a b => le_total b.length a.length⟩

instance {γ : Type} : IsTrans (List γ) lenGe :=
  ⟨fun _ _ _ hab hbc => le_trans hbc hab⟩

/-- `caseIdArray.sort((a, b) => b.length - a.length)` (lines 772-774):
the stable descending-length sort of the 2-d case-id array. -/
def sortCaseIdArray (l : List (List JsNum)) : List (List JsNum) :=
  List.insertionSort lenGe l

/-- `Visual.sortActivityEvents` (lines 734-777): group events by case
id, build one signature per case, group cases by signature, and rank
the signature groups by descending member count.  The result is the
`sortedCaseIdsPerPath` field. -/
def sortActivityEvents (events : List ActivityEvent) : List (List JsNum) :=
  let grouped := groupBy events (fun e => e.caseId.jsNumToString)
  let cases := casesOfGroups (objForIn grouped)
  let casesGrouped := groupBy cases (fun c => c.pathSorted)
  let caseIdArray := (objForIn casesGrouped).map (fun p => p.2.map (fun c => c.caseId))
  sortCaseIdArray caseIdArray

/-! ## Claim C3: path-signature order-independence -/

/-- C3 (amended): two cases — their case ids play no role and may
differ — whose encoded transition lists are permutations of each other
(the same *multiset* of `(from, to)` transitions in different row
order) produce identical `pathSorted` strings (the lexicographic sort
neutralizes order).  Equality of transition *sets* alone is not
enough: the signature is multiplicity-sensitive (see the
counterexample). -/
theorem c3_path_signature (ev1 ev2 : List ActivityEvent)
    (hp : (ev1.map encodeTransition).Perm (ev2.map encodeTransition)) :
    mkPathSorted ev1 = mkPathSorted ev2 := by
  have hperm : (ev1.map encodeTransition).Perm (ev2.map encodeTransition) := hp
  haveI hAnti : IsAntisymm String (fun a b => a ≤ b) :=
    ⟨fun a b h1 h2 => le_antisymm h1 h2⟩
  haveI hTot : IsTotal String (fun a b => a ≤ b) := ⟨fun a b => le_total a b⟩
  haveI hTrans : IsTrans String (fun a b => a ≤ b) :=
    ⟨fun _ _ _ h1 h2 => le_trans h1 h2⟩
  have h1 : sortStrings (ev1.map encodeTransition) =
      sortStrings (ev2.map encodeTransition) := by
    apply List.eq_of_perm_of_sorted (r := fun a b => a ≤ b)
    · exact (List.perm_insertionSort _ _).trans
        (hperm.trans (List.perm_insertionSort _ _).symm)
    · exact List.sorted_insertionSort _ _
    · exact List.sorted_insertionSort _ _
  rw [mkPathSorted, mkPathSorted, h1]

/-- C3 counterexample: the cases `[(A,B)]` and `[(A,B), (A,B)]` have
identical transition *sets* (the deduplicated encodings agree), yet
their `pathSorted` strings differ — the signature distinguishes
multiplicities, so "sets identical" does not imply equal signatures. -/
theorem c3_counterexample :
    (([⟨.fin 1, "A", "B"⟩] : List ActivityEvent).map encodeTransition).dedup =
        (([⟨.fin 2, "A", "B"⟩, ⟨.fin 2, "A", "B"⟩] :
          List ActivityEvent).map encodeTransition).dedup ∧
      mkPathSorted [⟨.fin 1, "A", "B"⟩] ≠
        mkPathSorted [⟨.fin 2, "A", "B"⟩, ⟨.fin 2, "A", "B"⟩] := by
  have hone : mkPathSorted [⟨.fin 1, "A", "B"⟩] = "A#sep1#B#sep2#" := rfl
  have hs : sortStrings ["A#sep1#B", "A#sep1#B"] = ["A#sep1#B", "A#sep1#B"] := by
    simp only [sortStrings, List.insertionSort, List.orderedInsert]
    rw [if_pos (le_refl ("A#sep1#B" : String))]
  have htwo : mkPathSorted [⟨.fin 2, "A", "B"⟩, ⟨.fin 2, "A", "B"⟩] =
      "A#sep1#B#sep2#A#sep1#B#sep2#" := by
    rw [mkPathSorted]
    have hmap : ([⟨.fin 2, "A", "B"⟩, ⟨.fin 2, "A", "B"⟩] :
        List ActivityEvent).map encodeTransition = ["A#sep1#B", "A#sep1#B"] := rfl
    rw [hmap, hs]
    rfl
  refine ⟨by decide, ?_⟩
  rw [hone, htwo]
  decide

/-- Witness for C3 at a concrete input: two *distinct* cases (case ids
`1` and `2`) with the same transitions in swapped row order share one
signature. -/
theorem c3_path_signature_witness :
    mkPathSorted [⟨.fin 1, "A", "B"⟩, ⟨.fin 1, "B", "C"⟩] =
      mkPathSorted [⟨.fin 2, "B", "C"⟩, ⟨.fin 2, "A", "B"⟩] :=
  c3_path_signature _ _ (List.Perm.swap _ _ _)

/-! ## Claim C4: ranking of path groups -/

theorem filter_orderedInsert_lenGe {γ : Type} (a : List γ)
    (l : List (List γ)) (n : ℕ) :
    (List.orderedInsert lenGe a l).filter (fun g => g.length == n) =
      if a.length = n then a :: l.filter (fun g => g.length == n)
      else l.filter (fun g => g.length == n) := by
  induction l with
  | nil =>
    by_cases h : a.length = n <;>
      simp [List.orderedInsert, List.filter_cons, List.filter_nil, h]
  | cons b t ih =>
    rw [List.orderedInsert]
    by_cases hr : lenGe a b
    · rw [if_pos hr]
      by_cases h : a.length = n <;> simp [List.filter_cons, h]
    · rw [if_neg hr]
      by_cases h : a.length = n
      · have hbn : b.length ≠ n := by
          intro hb
          exact hr (le_of_eq (by rw [hb, h]))
        simp [List.filter_cons, hbn, ih, h]
      · simp [List.filter_cons, ih, h]

theorem filter_insertionSort_lenGe {γ : Type} (l : List (List γ)) (n : ℕ) :
    (List.insertionSort lenGe l).filter (fun g => g.length == n) =
      l.filter (fun g => g.length == n) := by
  induction l with
  | nil => rfl
  | cons a t ih =>
    rw [List.insertionSort, filter_orderedInsert_lenGe]
    by_cases h : a.length = n <;> simp [List.filter_cons, h, ih]

/-- C4: the sort of line 772 ranks the case-id groups by descending
member count; it is a permutation of its input, and it is *stable*:
for each size `n`, the subsequence of groups of size `n` is unchanged,
so equal-count groups keep their first-seen relative order (ES2019
requires `Array.prototype.sort` to be stable; `insertionSort` realizes
that stable sort).  In particular groups of sizes `[3, 3, 5]` emitted
in that order rank as `[5, 3, 3]` with the two size-3 groups in their
original relative order. -/
theorem c4_ranking :
    (∀ l : List (List JsNum), (sortCaseIdArray l).Perm l) ∧
    (∀ l : List (List JsNum), List.Sorted lenGe (sortCaseIdArray l)) ∧
    (∀ (l : List (List JsNum)) (n : ℕ),
        (sortCaseIdArray l).filter (fun g => g.length == n) =
          l.filter (fun g => g.length == n)) ∧
    sortCaseIdArray [[.fin 1, .fin 2, .fin 3], [.fin 4, .fin 5, .fin 6],
        [.fin 7, .fin 8, .fin 9, .fin 10, .fin 11]] =
      [[.fin 7, .fin 8, .fin 9, .fin 10, .fin 11], [.fin 1, .fin 2, .fin 3],
        [.fin 4, .fin 5, .fin 6]] := by
  refine ⟨fun l => List.perm_insertionSort _ _,
    fun l => List.sorted_insertionSort _ _,
    fun l n => filter_insertionSort_lenGe l n, by decide⟩

/-! ## Claim C10: groupBy and its enumeration order -/

theorem insertGroup_map_fst {γ : Type} (memo : List (String × List γ))
    (k : String) (x : γ) :
    (insertGroup memo k x).map Prod.fst =
      if k ∈ memo.map Prod.fst then memo.map Prod.fst
      else memo.map Prod.fst ++ [k] := by
  rw [insertGroup]
  match h : alookup memo k with
  | some g =>
    rw [aset_map_fst, if_pos ((alookup_isSome_iff memo k).mp (by simp [h]))]
  | none =>
    have hnm : k ∉ memo.map Prod.fst := by
      intro hmem
      have h2 := (alookup_isSome_iff memo k).mpr hmem
      rw [h] at h2
      simp at h2
    rw [if_neg hnm, List.map_append]
    rfl

theorem groupBy_aux_keys {γ : Type} (keyOf : γ → String) :
    ∀ (arr : List γ) (memo : List (String × List γ)),
      (arr.foldl (fun m x => insertGroup m (keyOf x) x) memo).map Prod.fst =
        arr.foldl (fun acc x => if keyOf x ∈ acc then acc else acc ++ [keyOf x])
          (memo.map Prod.fst) := by
  intro arr
  induction arr with
  | nil => intro memo; rfl
  | cons x t ih =>
    intro memo
    rw [List.foldl_cons, List.foldl_cons, ih, insertGroup_map_fst]

/-- The object `groupBy` builds stores one property per distinct key,
created in first-seen order of the keys. -/
theorem groupBy_keys {γ : Type} (arr : List γ) (keyOf : γ → String) :
    (groupBy arr keyOf).map Prod.fst = jsSetDedup (arr.map keyOf) := by
  rw [groupBy, groupBy_aux_keys, jsSetDedup, List.foldl_map]
  rfl

theorem mem_jsSetDedup_aux {β : Type} [DecidableEq β] :
    ∀ (l acc : List β) (x : β),
      x ∈ l.foldl (fun acc y => if y ∈ acc then acc else acc ++ [y]) acc →
      x ∈ acc ∨ x ∈ l := by
  intro l
  induction l with
  | nil =>
    intro acc x h
    exact Or.inl h
  | cons y t ih =>
    intro acc x h
    rw [List.foldl_cons] at h
    rcases ih _ x h with hacc | ht
    · by_cases hy : y ∈ acc
      · rw [if_pos hy] at hacc
        exact Or.inl hacc
      · rw [if_neg hy] at hacc
        rcases List.mem_append.mp hacc with h1 | h2
        · exact Or.inl h1
        · simp only [List.mem_singleton] at h2
          exact Or.inr (h2 ▸ List.mem_cons_self y t)
    · exact Or.inr (List.mem_cons_of_mem _ ht)

theorem mem_jsSetDedup {β : Type} [DecidableEq β] (l : List β) (x : β)
    (h : x ∈ jsSetDedup l) : x ∈ l := by
  rcases mem_jsSetDedup_aux l [] x h with h0 | h1
  · simp at h0
  · exact h1

/-- C10 (amended): the `groupBy` helper's object stores its groups in
first-seen key order (first conjunct), but what callers observe is
`for...in` enumeration, which moves integer-like keys to the front in
ascending numeric order.  First-seen order is preserved exactly when no
key is an array index (second conjunct) — the `pathSorted` grouping;
grouping by numeric `caseId` is instead emitted in ascending case-id
order (see the counterexample). -/
theorem c10_groupBy_order :
    (∀ (γ : Type) (arr : List γ) (keyOf : γ → String),
        (groupBy arr keyOf).map Prod.fst = jsSetDedup (arr.map keyOf)) ∧
    (∀ (γ : Type) (arr : List γ) (keyOf : γ → String),
        (∀ x ∈ arr, isArrayIndexKey (keyOf x) = false) →
        objForIn (groupBy arr keyOf) = groupBy arr keyOf) := by
  refine ⟨fun γ arr keyOf => groupBy_keys arr keyOf, ?_⟩
  intro γ arr keyOf hidx
  have hkeys : ∀ p ∈ groupBy arr keyOf, isArrayIndexKey p.1 = false := by
    intro p hp
    have h1 : p.1 ∈ (groupBy arr keyOf).map Prod.fst :=
      List.mem_map_of_mem _ hp
    rw [groupBy_keys] at h1
    obtain ⟨x, hx, hk⟩ := List.mem_map.mp (mem_jsSetDedup _ _ h1)
    rw [← hk]
    exact hidx x hx
  rw [objForIn,
    List.filter_eq_nil_iff.mpr (fun p hp => by simp [hkeys p hp]),
    List.filter_eq_self.mpr (fun p hp => by simp [hkeys p hp])]
  simp

/-- C10 counterexample: two events with case ids `5` then `3`.  The
first-seen key order is `["5", "3"]`, but the enumerated group order —
what `sortActivityEvents` iterates — is `["3", "5"]` (integer-like
object keys are enumerated in ascending numeric order). -/
theorem c10_counterexample :
    (objForIn (groupBy
        [(⟨.fin 5, "A", "B"⟩ : ActivityEvent), ⟨.fin 3, "C", "D"⟩]
        (fun e => e.caseId.jsNumToString))).map Prod.fst = ["3", "5"] ∧
      jsSetDedup ([(⟨.fin 5, "A", "B"⟩ : ActivityEvent), ⟨.fin 3, "C", "D"⟩].map
        (fun e => e.caseId.jsNumToString)) = ["5", "3"] ∧
      (["3", "5"] : List String) ≠ ["5", "3"] := by
  refine ⟨by decide, by decide, by decide⟩

/-- Witness for C10 at a concrete input: grouping one `Case` by its
(non-integer-like) `pathSorted` key preserves the object order. -/
theorem c10_groupBy_order_witness :
    objForIn (groupBy [(⟨.fin 1, "X"⟩ : Case)] (fun c => c.pathSorted)) =
      groupBy [(⟨.fin 1, "X"⟩ : Case)] (fun c => c.pathSorted) :=
  c10_groupBy_order.2 Case [⟨.fin 1, "X"⟩] (fun c => c.pathSorted) (by decide)
